import Mathlib

/-!
Shallow embedding of the mediadevices-ffmpeg core: the YUV420p frame
demuxer (parse_video.go), the S16LE audio chunk parser (parse_audio.go),
the stderr ring buffer of the process supervisor (process.go), the
Annex-B NAL bitstream scanner and the RTP packetizer (h264_reader.go).
Bytes are modelled as natural numbers below 256; Go machine-integer
arithmetic is modelled with explicit `% 2^16` / `% 2^32` where the Go
code relies on wraparound.
-/

/-- Returns true when an Except value carries a success. -/
def isOkE {ε α : Type} : Except ε α → Bool
  | Except.ok _ => true
  | Except.error _ => false

/-! ## parse_video.go: parseYUV420pFrame -/

/-- The planar image produced by parseYUV420pFrame (image.YCbCr fields
that the parser fills: the three planes and the two strides). -/
structure YCbCrImage where
  y : List Nat
  cb : List Nat
  cr : List Nat
  yStride : Nat
  cStride : Nat
deriving Repr, DecidableEq

/-- Embedding of parseYUV420pFrame from parse_video.go: ySize = w*h,
cSize = ySize/4 (Go integer division), expected = ySize + 2*cSize; the
input must have exactly `expected` bytes; the planes are consecutive
slices of the input (the Go code deep-copies them), luma stride is the
width and chroma stride is (width+1)/2. -/
def parseYUV420pFrame (data : List Nat) (width height : Nat) :
    Except String YCbCrImage :=
  let ySize := width * height
  let cSize := ySize / 4
  let expected := ySize + 2 * cSize
  if data.length ≠ expected then
    Except.error "YUV420p frame: unexpected byte count"
  else
    let chromaW := (width + 1) / 2
    Except.ok
      { y := data.take ySize
        cb := (data.drop ySize).take cSize
        cr := (data.drop (ySize + cSize)).take cSize
        yStride := width
        cStride := chromaW }

/-! ## parse_audio.go: parseS16LEChunk -/

/-- An audio chunk as in parse_audio.go: interleaved int16 samples,
channel count, sample rate and samples per channel. -/
structure AudioChunk where
  data : List Int
  channels : Nat
  sampleRate : Nat
  samplesPerChannel : Nat
deriving Repr, DecidableEq

/-- binary.LittleEndian.Uint16 of two bytes followed by the int16 cast:
the unsigned value b0 + 256*b1 reinterpreted in twos complement. -/
def int16FromLE (b0 b1 : Nat) : Int :=
  let v := b0 + 256 * b1
  if v < 32768 then (v : Int) else (v : Int) - 65536

/-- Embedding of parseS16LEChunk from parse_audio.go: frameSize =
channels*2; inputs whose length is not a multiple of frameSize are
rejected; otherwise totalSamples = length/2 samples are decoded in
input order, sample i from bytes 2i and 2i+1, and samplesPerChannel =
totalSamples/channels. -/
def parseS16LEChunk (data : List Nat) (channels sampleRate : Nat) :
    Except String AudioChunk :=
  let frameSize := channels * 2
  if data.length % frameSize ≠ 0 then
    Except.error "S16LE chunk: bytes not aligned to frame size"
  else
    let totalSamples := data.length / 2
    Except.ok
      { data := (List.range totalSamples).map
          (fun i => int16FromLE (data.getD (2 * i) 0) (data.getD (2 * i + 1) 0))
        channels := channels
        sampleRate := sampleRate
        samplesPerChannel := totalSamples / channels }

/-! ## process.go: the stderr ring buffer -/

/-- The byte ceiling of the stderr ring buffer (stderrBufSize). -/
def stderrBufSize : Nat := 4096

/-- One append step of drainStderr from process.go: the read chunk is
appended to the buffer and the buffer is trimmed to its last
stderrBufSize bytes whenever it exceeds that ceiling. -/
def stderrStep (buf chunk : List Nat) : List Nat :=
  let b := buf ++ chunk
  if stderrBufSize < b.length then b.drop (b.length - stderrBufSize) else b

/-- The buffer contents after the drain task has processed a sequence of
reads, starting from the empty buffer (drainStderr's loop). LastStderr
returns exactly this buffer as a string. -/
def drainStderr (chunks : List (List Nat)) : List Nat :=
  chunks.foldl stderrStep []

/-! ## h264_reader.go: NAL units and the Annex-B bitstream scanner -/

/-- A NAL unit as in h264_reader.go: the raw payload bytes, the type
(low 5 bits of the first byte) and the derived keyframe flag. -/
structure NALUnit where
  type : Nat
  data : List Nat
  keyframe : Bool
deriving Repr, DecidableEq

/-- H264NaluType.IsKeyframe: SPS (7), PPS (8) or IDR slice (5). -/
def isKeyframeType (t : Nat) : Bool :=
  decide (t = 7) || decide (t = 8) || decide (t = 5)

/-- Builds the NALUnit a scanner emits from a slice of payload bytes:
type is the low 5 bits of the first byte, keyframe per IsKeyframe. -/
def mkNALUnit (nalData : List Nat) : NALUnit :=
  { type := nalData.getD 0 0 &&& 31
    data := nalData
    keyframe := isKeyframeType (nalData.getD 0 0 &&& 31) }

/-- The start-code search loop of parseH264Bitstream, on the suffix of
the buffer beginning at the current index i. The Go loop runs while
i < len(data)-3, i.e. while at least four bytes remain; it first tests
for a 3-byte start code at i, then (only when additionally i <
len(data)-4, i.e. at least five bytes remain) for a 4-byte start code.
Returns the absolute index of the start code and its length. -/
def findStartS : List Nat → Nat → Option (Nat × Nat)
  | a :: b :: c :: d :: rest, i =>
    if a = 0 ∧ b = 0 ∧ c = 1 then some (i, 3)
    else if rest ≠ [] ∧ a = 0 ∧ b = 0 ∧ c = 0 ∧ d = 1 then some (i, 4)
    else findStartS (b :: c :: d :: rest) (i + 1)
  | _, _ => none

/-- The next-start-code search loop of parseH264Bitstream: the Go loop
runs while j < len(data)-4, i.e. while at least five bytes remain of the
suffix, testing for a 4-byte and then a 3-byte start code at j; it
returns the index where it stopped. -/
def findNextS : List Nat → Nat → Nat
  | a :: b :: c :: d :: e :: rest, j =>
    if a = 0 ∧ b = 0 ∧ c = 0 ∧ d = 1 then j
    else if a = 0 ∧ b = 0 ∧ c = 1 then j
    else findNextS (b :: c :: d :: e :: rest) (j + 1)
  | _, j => j

/-- The outer loop of parseH264Bitstream operating on the current
suffix of the buffer. Each iteration: locate a start code (break when
none is found), skip it (break when nothing follows), locate the next
start code from there, emit the bytes in between when nonempty, and
continue at the stopping index. The fuel argument bounds the number of
iterations; each iteration consumes at least three bytes of the suffix,
so fuel equal to the buffer length is never exhausted. -/
def parseLoopF : Nat → List Nat → List NALUnit
  | 0, _ => []
  | Nat.succ fuel, s =>
    if s = [] then []
    else
      match findStartS s 0 with
      | none => []
      | some (p, scl) =>
        let s2 := s.drop (p + scl)
        if s2 = [] then []
        else
          let r := findNextS s2 0
          let nalData := s2.take r
          let rest := parseLoopF fuel (s2.drop r)
          if 0 < nalData.length then mkNALUnit nalData :: rest else rest

/-- Embedding of parseH264Bitstream from h264_reader.go. -/
def parseH264Bitstream (d : List Nat) : List NALUnit :=
  parseLoopF d.length d

/-- H264VideoReader.Read on the byte window obtained from the
subprocess: parse the window; if no unit was found return nothing (and
no error); otherwise return the first unit, discarding the rest. -/
def h264VideoReaderRead (window : List Nat) : Option NALUnit :=
  match parseH264Bitstream window with
  | [] => none
  | u :: _ => some u

/-! ## h264_reader.go: the RTP packetizer -/

/-- An RTP packet as built by the packetizer: fixed version 2 and
payload type 96, the marker bit, sequence number, timestamp, SSRC and
payload bytes. -/
structure RTPPacket where
  version : Nat
  marker : Bool
  payloadType : Nat
  seqNum : Nat
  timestamp : Nat
  ssrc : Nat
  payload : List Nat
deriving Repr, DecidableEq

/-- The mutable RTPReader state: SSRC, the 16-bit sequence counter, the
32-bit timestamp accumulator and the MTU. -/
structure RTPState where
  ssrc : Nat
  seq : Nat
  ts : Nat
  mtu : Nat
deriving Repr, DecidableEq

/-- NewRTPReader from h264_reader.go: an MTU outside (0, 1500] is
replaced by 1200; the sequence counter starts at uint16(initialSSRC)
and the timestamp accumulator at 0. -/
def newRTPReader (initialSSRC : Nat) (mtu : Int) : RTPState :=
  let m : Nat := if mtu ≤ 0 ∨ 1500 < mtu then 1200 else mtu.toNat
  { ssrc := initialSSRC, seq := initialSSRC % 65536, ts := 0, mtu := m }

/-- The fragmentation loop of nalToRTPMultiple. Arguments mirror the Go
loop state: cap is maxPayloadSize-14, ind the FU indicator, kf the NAL
keyframe flag, first records whether offset = 0, q and t the sequence
and timestamp counters, data the remaining payload bytes. Each
iteration emits one fragment whose payload is the indicator, the FU
header (Start bit 0x80 on the first fragment, End bit 0x40 on the
last) and up to cap payload bytes; nextSeq and nextTS are called once
per emitted packet, wrapping at 2^16 and 2^32. The fuel argument only
bounds the recursion; with cap at least 1 a fuel of data.length is
never exhausted. -/
def fuLoop (fuel cap ind : Nat) (kf : Bool) (ssrc : Nat) (first : Bool)
    (q t : Nat) (data : List Nat) : List RTPPacket × Nat × Nat :=
  match fuel with
  | 0 => ([], q, t)
  | Nat.succ fuel2 =>
    if data = [] then ([], q, t)
    else
      let isLast := decide (data.length ≤ cap)
      let fuH := (if first then 128 else 0) + (if isLast then 64 else 0)
      let chunkSize := if data.length ≤ cap then data.length else cap
      let q2 := (q + 1) % 65536
      let t2 := (t + 3000) % 4294967296
      let pkt : RTPPacket :=
        { version := 2, marker := isLast && kf, payloadType := 96
          seqNum := q2, timestamp := t2, ssrc := ssrc
          payload := ind :: fuH :: data.take chunkSize }
      let rest := fuLoop fuel2 cap ind kf ssrc false q2 t2 (data.drop chunkSize)
      (pkt :: rest.1, rest.2)

/-- nalToRTPMultiple from h264_reader.go. With maxPayloadSize = mtu-20:
a NAL of at most maxPayloadSize-12 bytes is sent whole in one packet
with the marker set, advancing the sequence number and timestamp once.
Otherwise the NAL is fragmented: the FU indicator is 28 combined with
the top three bits of the first NAL byte, and the loop above runs over
the NAL payload minus its first byte with cap = maxPayloadSize-14.
The result is none exactly where the Go code faults: an empty NAL in
the fragmentation path reads Data[0] out of range, and a nonempty
remainder with cap below 1 either slices with a negative bound or
loops forever. -/
def nalToRTPMultiple (r : RTPState) (nal : NALUnit) :
    Option (List RTPPacket × RTPState) :=
  let nalLen := nal.data.length
  let maxPayloadSize : Int := (r.mtu : Int) - 20
  if (nalLen : Int) ≤ maxPayloadSize - 12 then
    some ([{ version := 2, marker := true, payloadType := 96
             seqNum := (r.seq + 1) % 65536
             timestamp := (r.ts + 3000) % 4294967296
             ssrc := r.ssrc, payload := nal.data }],
          { r with seq := (r.seq + 1) % 65536
                   ts := (r.ts + 3000) % 4294967296 })
  else
    match nal.data with
    | [] => none
    | b0 :: payloadData =>
      let fuIndicator := 28 ||| (b0 &&& 224)
      let cap : Int := maxPayloadSize - 14
      if 1 ≤ cap then
        let res := fuLoop payloadData.length cap.toNat fuIndicator
          nal.keyframe r.ssrc true r.seq r.ts payloadData
        some (res.1, { r with seq := res.2.1, ts := res.2.2 })
      else if payloadData = [] then some ([], r)
      else none

/-- A sequence of packetize calls on one packetizer state, concatenating
the emitted packets in order (the ReadMultiple path, one call per NAL). -/
def packetizeRun (r : RTPState) : List NALUnit → Option (List RTPPacket × RTPState)
  | [] => some ([], r)
  | n :: ns =>
    match nalToRTPMultiple r n with
    | none => none
    | some (ps, r2) =>
      match packetizeRun r2 ns with
      | none => none
      | some (qs, r3) => some (ps ++ qs, r3)

/-! ## Theorems: creation state (C4) -/

/-- C4 counterexample: a session created with SSRC 1 has sequence
counter 1, not 0, so the claim that every freshly created session has
sequence counter 0 fails. -/
theorem newRTPReader_seq_nonzero_cex : (newRTPReader 1 1200).seq ≠ 0 := by
  decide

/-- C4 (amended): a freshly created RTP packetizer session has timestamp
accumulator 0 and sequence counter equal to the low 16 bits of the
initial SSRC, for every choice of creation parameters. -/
theorem newRTPReader_init (initialSSRC : Nat) (mtu : Int) :
    (newRTPReader initialSSRC mtu).seq = initialSSRC % 65536 ∧
      (newRTPReader initialSSRC mtu).ts = 0 :=
  ⟨rfl, rfl⟩

/-! ## Theorems: raw video frame parsing (C6) -/

/-- C6 counterexample: for width 2 and height 1 the claimed required
length width*height*3/2 is 3, but parsing 3 bytes fails (the code
expects width*height + 2*(width*height/4) = 2 bytes). -/
theorem parseYUV420pFrame_len_cex :
    2 * 1 * 3 / 2 = 3 ∧
      isOkE (parseYUV420pFrame (List.replicate 3 0) 2 1) = false ∧
      isOkE (parseYUV420pFrame (List.replicate 2 0) 2 1) = true := by
  refine ⟨rfl, ?_, ?_⟩ <;> decide

/-- C6 (amended): for every width > 0 and height > 0, parsing a raw
video frame succeeds iff the input length equals width*height +
2*(width*height/4) (which is width*height*3/2 whenever width*height is
divisible by 4, in particular for even width and height); on success
the luma plane has width*height bytes, each chroma plane has
width*height/4 bytes, the luma stride is the width and the chroma
stride is the ceiling of width/2. -/
theorem parseYUV420pFrame_spec (data : List Nat) (width height : Nat)
    (hw : 0 < width) (hh : 0 < height) :
    (isOkE (parseYUV420pFrame data width height) = true ↔
        data.length = width * height + 2 * (width * height / 4)) ∧
      (∀ img, parseYUV420pFrame data width height = Except.ok img →
        img.y.length = width * height ∧
        img.cb.length = width * height / 4 ∧
        img.cr.length = width * height / 4 ∧
        img.yStride = width ∧ img.cStride = (width + 1) / 2) := by
  unfold parseYUV420pFrame
  by_cases h : data.length = width * height + 2 * (width * height / 4)
  · simp only [h, ne_eq, not_true_eq_false, if_false, isOkE]
    constructor
    · simp
    · intro img himg
      injection himg with himg
      subst himg
      refine ⟨?_, ?_, ?_, rfl, rfl⟩ <;>
        simp [List.length_take, List.length_drop, h] <;> omega
  · simp [h, isOkE]

/-- Witness for C6: a 4 by 2 frame of 12 bytes parses, with plane
lengths 8, 2, 2 and strides 4 and 2. -/
theorem parseYUV420pFrame_spec_witness :
    0 < 4 ∧ 0 < 2 ∧
      ((isOkE (parseYUV420pFrame (List.replicate 12 7) 4 2) = true ↔
          (List.replicate 12 7).length = 4 * 2 + 2 * (4 * 2 / 4)) ∧
        (∀ img, parseYUV420pFrame (List.replicate 12 7) 4 2 = Except.ok img →
          img.y.length = 4 * 2 ∧
          img.cb.length = 4 * 2 / 4 ∧
          img.cr.length = 4 * 2 / 4 ∧
          img.yStride = 4 ∧ img.cStride = (4 + 1) / 2)) :=
  ⟨by decide, by decide,
    parseYUV420pFrame_spec (List.replicate 12 7) 4 2 (by decide) (by decide)⟩

/-! ## Theorems: raw audio chunk parsing (C7) -/

/-- C7: for every positive channel count and every input byte string,
parsing fails with the alignment error iff the input length is not a
multiple of channels*2; otherwise it succeeds with sample count
length/2, samples-per-channel sample count divided by channels, and
sample i equal to the signed 16-bit little-endian value of bytes 2i
and 2i+1 in input order. -/
theorem parseS16LEChunk_spec (data : List Nat) (channels sampleRate : Nat)
    (hch : 0 < channels) :
    (isOkE (parseS16LEChunk data channels sampleRate) = false ↔
        data.length % (channels * 2) ≠ 0) ∧
      (∀ ch, parseS16LEChunk data channels sampleRate = Except.ok ch →
        ch.data.length = data.length / 2 ∧
        ch.channels = channels ∧
        ch.samplesPerChannel = data.length / 2 / channels ∧
        ∀ i (h : i < ch.data.length),
          ch.data[i] = int16FromLE (data.getD (2 * i) 0) (data.getD (2 * i + 1) 0)) := by
  unfold parseS16LEChunk
  by_cases h : data.length % (channels * 2) = 0
  · simp only [h, ne_eq, not_true_eq_false, if_false, isOkE]
    refine ⟨by simp, ?_⟩
    intro ch hch2
    injection hch2 with hch2
    subst hch2
    refine ⟨by simp, rfl, rfl, ?_⟩
    intro i hi
    simp only [List.length_map, List.length_range] at hi
    simp [List.getElem_map, List.getElem_range]
  · simp [h, isOkE]

/-- Witness for C7: the spec's stereo example, int16 samples
100, -100, 200, -200 encoded little-endian, parses to those samples
with 2 samples per channel. -/
theorem parseS16LEChunk_spec_witness :
    0 < 2 ∧
      ((isOkE (parseS16LEChunk [100, 0, 156, 255, 200, 0, 56, 255] 2 48000) = false ↔
          ([100, 0, 156, 255, 200, 0, 56, 255] : List Nat).length % (2 * 2) ≠ 0) ∧
        (∀ ch, parseS16LEChunk [100, 0, 156, 255, 200, 0, 56, 255] 2 48000 = Except.ok ch →
          ch.data.length = ([100, 0, 156, 255, 200, 0, 56, 255] : List Nat).length / 2 ∧
          ch.channels = 2 ∧
          ch.samplesPerChannel = ([100, 0, 156, 255, 200, 0, 56, 255] : List Nat).length / 2 / 2 ∧
          ∀ i (h : i < ch.data.length),
            ch.data[i] = int16FromLE (([100, 0, 156, 255, 200, 0, 56, 255] : List Nat).getD (2 * i) 0)
              (([100, 0, 156, 255, 200, 0, 56, 255] : List Nat).getD (2 * i + 1) 0))) :=
  ⟨by decide, parseS16LEChunk_spec [100, 0, 156, 255, 200, 0, 56, 255] 2 48000 (by decide)⟩

/-! ## Theorems: the stderr ring buffer (C9) -/

/-- One drain step preserves the suffix characterization: if the buffer
holds the last stderrBufSize bytes of the stream written so far,
appending a chunk leaves it holding the last stderrBufSize bytes of the
extended stream. -/
theorem stderrStep_suffix (s c : List Nat) :
    stderrStep (s.drop (s.length - stderrBufSize)) c =
      (s ++ c).drop ((s ++ c).length - stderrBufSize) := by
  simp only [stderrStep]
  by_cases hs : s.length ≤ stderrBufSize
  · have h0 : s.length - stderrBufSize = 0 := by omega
    rw [h0, List.drop_zero]
    by_cases hb : stderrBufSize < (s ++ c).length
    · rw [if_pos hb]
    · rw [if_neg hb]
      have h1 : (s ++ c).length - stderrBufSize = 0 := by omega
      rw [h1, List.drop_zero]
  · push_neg at hs
    have hlen : (s.drop (s.length - stderrBufSize)).length = stderrBufSize := by
      rw [List.length_drop]; omega
    by_cases hc : c = []
    · subst hc
      have hb : ¬ stderrBufSize < (s.drop (s.length - stderrBufSize) ++ ([] : List Nat)).length := by
        rw [List.append_nil, hlen]; omega
      rw [if_neg hb, List.append_nil, List.append_nil]
    · have hcpos : 0 < c.length := List.length_pos.mpr hc
      have hb : stderrBufSize <
          (s.drop (s.length - stderrBufSize) ++ c).length := by
        rw [List.length_append, hlen]; omega
      rw [if_pos hb]
      have hsplit : s ++ c =
          s.take (s.length - stderrBufSize) ++
            (s.drop (s.length - stderrBufSize) ++ c) := by
        rw [← List.append_assoc, List.take_append_drop]
      have htlen : (s.take (s.length - stderrBufSize)).length =
          s.length - stderrBufSize := by
        rw [List.length_take]; omega
      rw [hsplit]
      have harith : (s.take (s.length - stderrBufSize) ++
            (s.drop (s.length - stderrBufSize) ++ c)).length - stderrBufSize =
          (s.take (s.length - stderrBufSize)).length +
            ((s.drop (s.length - stderrBufSize) ++ c).length - stderrBufSize) := by
        rw [List.length_append, htlen, List.length_append, hlen]
        omega
      rw [harith, List.drop_append]

/-- drainStderr's fold, started from a buffer that is the bounded suffix
of a previously written stream s, produces the bounded suffix of the
full stream. -/
theorem drainStderr_foldl (chunks : List (List Nat)) :
    ∀ s : List Nat,
      chunks.foldl stderrStep (s.drop (s.length - stderrBufSize)) =
        (s ++ chunks.flatten).drop
          ((s ++ chunks.flatten).length - stderrBufSize) := by
  induction chunks with
  | nil => intro s; simp
  | cons c cs ih =>
    intro s
    rw [List.foldl_cons, stderrStep_suffix s c]
    have h := ih (s ++ c)
    rw [h, List.flatten_cons, ← List.append_assoc]

/-- C9: after any sequence of writes by the drain task the diagnostic
ring buffer never exceeds 4096 bytes, and it equals the suffix of the
written byte stream of length min(total written, 4096) — the oldest
bytes are evicted first. The snapshot returned to a reader is exactly
this buffer. -/
theorem drainStderr_bounded_suffix (chunks : List (List Nat)) :
    (drainStderr chunks).length ≤ 4096 ∧
      drainStderr chunks =
        chunks.flatten.drop (chunks.flatten.length - 4096) ∧
      (drainStderr chunks).length = min chunks.flatten.length 4096 := by
  have h := drainStderr_foldl chunks []
  simp only [List.nil_append, List.length_nil, Nat.zero_sub, List.drop_nil,
    List.drop_zero] at h
  unfold drainStderr
  rw [h]
  have hb : stderrBufSize = 4096 := rfl
  rw [List.length_drop, hb]
  refine ⟨by omega, rfl, by omega⟩

/-! ## Lemmas about the fragmentation loop -/

/-- The fragmentation loop emits nothing on an empty remainder. -/
theorem fuLoop_nil (fuel cap ind : Nat) (kf : Bool) (ssrc : Nat)
    (first : Bool) (q t : Nat) :
    fuLoop fuel cap ind kf ssrc first q t [] = ([], q, t) := by
  cases fuel <;> rfl

/-- The fragmentation loop emits at least one packet on a nonempty
remainder when it has enough fuel. -/
theorem fuLoop_pos (cap ind : Nat) (kf : Bool) (ssrc : Nat)
    (fuel : Nat) (data : List Nat) (first : Bool) (q t : Nat)
    (hne : data ≠ []) (hlen : data.length ≤ fuel) :
    0 < (fuLoop fuel cap ind kf ssrc first q t data).1.length := by
  cases fuel with
  | zero =>
    exact absurd (List.eq_nil_of_length_eq_zero (Nat.le_zero.mp hlen)) hne
  | succ fuel2 =>
    simp only [fuLoop, if_neg hne]
    simp

/-- Concatenating the fragment chunks emitted by the loop (each packet's
payload with the two FU bytes stripped) yields the remaining payload
bytes exactly. -/
theorem fuLoop_concat (cap ind : Nat) (kf : Bool) (ssrc : Nat) :
    ∀ (fuel : Nat) (data : List Nat) (first : Bool) (q t : Nat),
      1 ≤ cap → data.length ≤ fuel →
      ((fuLoop fuel cap ind kf ssrc first q t data).1.map
          (fun p => p.payload.drop 2)).flatten = data := by
  intro fuel
  induction fuel with
  | zero =>
    intro data first q t hcap hlen
    have hd : data = [] := List.eq_nil_of_length_eq_zero (Nat.le_zero.mp hlen)
    subst hd; rfl
  | succ fuel2 ih =>
    intro data first q t hcap hlen
    by_cases hempty : data = []
    · subst hempty; rfl
    · by_cases hle : data.length ≤ cap
      · simp only [fuLoop, if_neg hempty, decide_eq_true_eq, if_pos hle]
        have hrest := fuLoop_nil fuel2 cap ind kf ssrc false
          ((q + 1) % 65536) ((t + 3000) % 4294967296)
        simp only [List.drop_eq_nil_of_le (le_refl data.length), List.drop_length,
          hrest, List.map_cons, List.map_nil, List.flatten_cons,
          List.flatten_nil, List.append_nil, List.drop_succ_cons,
          List.drop_zero, List.take_length]
      · push_neg at hle
        simp only [fuLoop, if_neg hempty, decide_eq_true_eq,
          if_neg (Nat.not_le.mpr hle)]
        have hlen2 : (data.drop cap).length ≤ fuel2 := by
          rw [List.length_drop]; omega
        have ihspec := ih (data.drop cap) false ((q + 1) % 65536)
          ((t + 3000) % 4294967296) hcap hlen2
        simp only [List.map_cons, List.flatten_cons, List.drop_succ_cons,
          List.drop_zero, ihspec]
        exact List.take_append_drop cap data

/-- Sequence numbers inside one fragmentation loop run: packet i carries
(q + 1 + i) mod 2^16 and the final counter is congruent to q plus the
number of packets emitted. -/
theorem fuLoop_seq (cap ind : Nat) (kf : Bool) (ssrc : Nat) :
    ∀ (fuel : Nat) (data : List Nat) (first : Bool) (q t : Nat),
      1 ≤ cap → data.length ≤ fuel →
      (∀ i (hi : i < (fuLoop fuel cap ind kf ssrc first q t data).1.length),
          ((fuLoop fuel cap ind kf ssrc first q t data).1[i]).seqNum =
            (q + 1 + i) % 65536) ∧
        (fuLoop fuel cap ind kf ssrc first q t data).2.1 ≡
          q + (fuLoop fuel cap ind kf ssrc first q t data).1.length [MOD 65536] := by
  intro fuel
  induction fuel with
  | zero =>
    intro data first q t hcap hlen
    have hd : data = [] := List.eq_nil_of_length_eq_zero (Nat.le_zero.mp hlen)
    subst hd
    constructor
    · intro i hi; simp [fuLoop] at hi
    · simp [fuLoop, Nat.ModEq]
  | succ fuel2 ih =>
    intro data first q t hcap hlen
    by_cases hempty : data = []
    · subst hempty
      constructor
      · intro i hi; simp [fuLoop] at hi
      · simp [fuLoop, Nat.ModEq]
    · by_cases hle : data.length ≤ cap
      · simp only [fuLoop, if_neg hempty, decide_eq_true_eq, if_pos hle,
          List.drop_length, fuLoop_nil]
        constructor
        · intro i hi
          simp only [List.length_cons, List.length_nil] at hi
          interval_cases i
          simp
        · simp only [List.length_cons, List.length_nil]
          unfold Nat.ModEq
          omega
      · push_neg at hle
        simp only [fuLoop, if_neg hempty, decide_eq_true_eq,
          if_neg (Nat.not_le.mpr hle)]
        have hlen2 : (data.drop cap).length ≤ fuel2 := by
          rw [List.length_drop]; omega
        have ihspec := ih (data.drop cap) false ((q + 1) % 65536)
          ((t + 3000) % 4294967296) hcap hlen2
        constructor
        · intro i hi
          match i with
          | 0 => simp
          | Nat.succ j =>
            simp only [List.getElem_cons_succ]
            simp only [List.length_cons] at hi
            have hj : j < (fuLoop fuel2 cap ind kf ssrc false ((q + 1) % 65536)
                ((t + 3000) % 4294967296) (data.drop cap)).1.length := by omega
            have := ihspec.1 j hj
            rw [this]
            omega
        · simp only [List.length_cons]
          have := ihspec.2
          unfold Nat.ModEq at this ⊢
          omega

/-- Shape of each fragment the loop emits: the payload is the FU
indicator, then the FU header whose Start bit is set exactly on the
top-level first fragment and whose End bit is set exactly on the final
fragment, then at most cap data bytes; the marker is the keyframe flag
on the final fragment and false elsewhere. -/
theorem fuLoop_shape (cap ind : Nat) (kf : Bool) (ssrc : Nat) :
    ∀ (fuel : Nat) (data : List Nat) (first : Bool) (q t : Nat),
      1 ≤ cap → data.length ≤ fuel →
      ∀ i (hi : i < (fuLoop fuel cap ind kf ssrc first q t data).1.length),
        ∃ chunk : List Nat,
          ((fuLoop fuel cap ind kf ssrc first q t data).1[i]).payload =
            ind :: ((if first = true ∧ i = 0 then 128 else 0) +
              (if i = (fuLoop fuel cap ind kf ssrc first q t data).1.length - 1
                then 64 else 0)) :: chunk ∧
          chunk.length ≤ cap ∧
          ((fuLoop fuel cap ind kf ssrc first q t data).1[i]).marker =
            (decide (i = (fuLoop fuel cap ind kf ssrc first q t data).1.length - 1)
              && kf) := by
  intro fuel
  induction fuel with
  | zero =>
    intro data first q t hcap hlen i hi
    have hd : data = [] := List.eq_nil_of_length_eq_zero (Nat.le_zero.mp hlen)
    subst hd
    simp [fuLoop] at hi
  | succ fuel2 ih =>
    intro data first q t hcap hlen i hi
    by_cases hempty : data = []
    · subst hempty; simp [fuLoop] at hi
    · by_cases hle : data.length ≤ cap
      · simp only [fuLoop, if_neg hempty, decide_eq_true_eq, if_pos hle,
          List.drop_length, fuLoop_nil] at hi ⊢
        simp only [List.length_cons, List.length_nil] at hi ⊢
        interval_cases i
        refine ⟨data.take data.length, ?_, ?_, ?_⟩
        · simp [hle]
        · simpa using hle
        · simp [hle]
      · push_neg at hle
        have hlen2 : (data.drop cap).length ≤ fuel2 := by
          rw [List.length_drop]; omega
        have hne2 : data.drop cap ≠ [] := by
          intro hcon
          have := congrArg List.length hcon
          rw [List.length_drop] at this
          simp at this
          omega
        have hpos := fuLoop_pos cap ind kf ssrc fuel2 (data.drop cap) false
          ((q + 1) % 65536) ((t + 3000) % 4294967296) hne2 hlen2
        simp only [fuLoop, if_neg hempty, decide_eq_true_eq,
          if_neg (Nat.not_le.mpr hle)] at hi ⊢
        simp only [List.length_cons] at hi ⊢
        match i with
        | 0 =>
          refine ⟨data.take cap, ?_, ?_, ?_⟩
          · simp only [List.getElem_cons_zero]
            have h1 : ¬ (0 : Nat) =
                (fuLoop fuel2 cap ind kf ssrc false ((q + 1) % 65536)
                  ((t + 3000) % 4294967296) (data.drop cap)).1.length + 1 - 1 := by
              omega
            rw [if_neg h1]
            have h2 : ¬ data.length ≤ cap := Nat.not_le.mpr hle
            simp [h2]
          · rw [List.length_take]; omega
          · simp only [List.getElem_cons_zero]
            have h1 : ¬ (0 : Nat) =
                (fuLoop fuel2 cap ind kf ssrc false ((q + 1) % 65536)
                  ((t + 3000) % 4294967296) (data.drop cap)).1.length + 1 - 1 := by
              omega
            have h2 : ¬ data.length ≤ cap := Nat.not_le.mpr hle
            have h3 : ¬ ((0 : Nat) =
                (fuLoop fuel2 cap ind kf ssrc false ((q + 1) % 65536)
                  ((t + 3000) % 4294967296) (data.drop cap)).1.length) := by
              omega
            simp [h2, h3]
        | Nat.succ j =>
          have hj : j < (fuLoop fuel2 cap ind kf ssrc false ((q + 1) % 65536)
              ((t + 3000) % 4294967296) (data.drop cap)).1.length := by omega
          obtain ⟨chunk, hpay, hclen, hmark⟩ := ih (data.drop cap) false
            ((q + 1) % 65536) ((t + 3000) % 4294967296) hcap hlen2 j hj
          refine ⟨chunk, ?_, hclen, ?_⟩
          · simp only [List.getElem_cons_succ]
            rw [hpay]
            have hiff : (j = (fuLoop fuel2 cap ind kf ssrc false ((q + 1) % 65536)
                  ((t + 3000) % 4294967296) (data.drop cap)).1.length - 1) ↔
                (j + 1 = (fuLoop fuel2 cap ind kf ssrc false ((q + 1) % 65536)
                  ((t + 3000) % 4294967296) (data.drop cap)).1.length + 1 - 1) := by
              omega
            have e1 : (if false = true ∧ j = 0 then (128 : Nat) else 0) = 0 := by
              simp
            have e2 : (if first = true ∧ j + 1 = 0 then (128 : Nat) else 0) = 0 := by
              simp
            rw [e1, e2, if_congr hiff rfl rfl]
          · simp only [List.getElem_cons_succ]
            rw [hmark]
            have hiff : (j = (fuLoop fuel2 cap ind kf ssrc false ((q + 1) % 65536)
                  ((t + 3000) % 4294967296) (data.drop cap)).1.length - 1) ↔
                (j + 1 = (fuLoop fuel2 cap ind kf ssrc false ((q + 1) % 65536)
                  ((t + 3000) % 4294967296) (data.drop cap)).1.length + 1 - 1) := by
              omega
            rw [decide_eq_decide.mpr hiff]

/-- The loop emits at least two fragments when the remainder exceeds the
chunk cap. -/
theorem fuLoop_len2 (cap ind : Nat) (kf : Bool) (ssrc : Nat)
    (fuel : Nat) (data : List Nat) (first : Bool) (q t : Nat)
    (hcap : 1 ≤ cap) (hlen : data.length ≤ fuel) (hgt : cap < data.length) :
    2 ≤ (fuLoop fuel cap ind kf ssrc first q t data).1.length := by
  cases fuel with
  | zero => omega
  | succ fuel2 =>
    have hempty : data ≠ [] := by
      intro hcon; subst hcon; simp at hgt
    have hlen2 : (data.drop cap).length ≤ fuel2 := by
      rw [List.length_drop]; omega
    have hne2 : data.drop cap ≠ [] := by
      intro hcon
      have := congrArg List.length hcon
      rw [List.length_drop] at this
      simp at this
      omega
    have hpos := fuLoop_pos cap ind kf ssrc fuel2 (data.drop cap) false
      ((q + 1) % 65536) ((t + 3000) % 4294967296) hne2 hlen2
    simp only [fuLoop, if_neg hempty, decide_eq_true_eq,
      if_neg (Nat.not_le.mpr hgt), List.length_cons]
    omega

/-- In the fragmentation regime (NAL too large for a single packet, MTU
at least 35), nalToRTPMultiple runs the fragmentation loop over the NAL
payload minus its first byte with chunk cap mtu - 34 and FU indicator
28 combined with the top three bits of the first byte. -/
theorem nalToRTPMultiple_frag_eq (r : RTPState) (tp b0 : Nat) (pd : List Nat)
    (kf : Bool) (hmtu : 35 ≤ r.mtu) (hfrag : r.mtu - 32 < pd.length + 1) :
    nalToRTPMultiple r { type := tp, data := b0 :: pd, keyframe := kf } =
      some ((fuLoop pd.length (r.mtu - 34) (28 ||| (b0 &&& 224)) kf r.ssrc
          true r.seq r.ts pd).1,
        { r with
            seq := (fuLoop pd.length (r.mtu - 34) (28 ||| (b0 &&& 224)) kf
              r.ssrc true r.seq r.ts pd).2.1
            ts := (fuLoop pd.length (r.mtu - 34) (28 ||| (b0 &&& 224)) kf
              r.ssrc true r.seq r.ts pd).2.2 }) := by
  simp only [nalToRTPMultiple, List.length_cons]
  have hcond : ¬ (((pd.length + 1 : Nat) : Int) ≤ (r.mtu : Int) - 20 - 12) := by
    push_cast
    omega
  rw [if_neg hcond]
  have hcap : (1 : Int) ≤ (r.mtu : Int) - 20 - 14 := by
    omega
  rw [if_pos hcap]
  have htn : ((r.mtu : Int) - 20 - 14).toNat = r.mtu - 34 := by
    omega
  rw [htn]

/-- C1 evaluation at the failing input: a keyframe-insignificant NAL of
100 bytes packetized with MTU 50 fragments into seven packets whose
timestamps are 3000, 6000, ..., 21000 — the per-NAL timestamp is not
shared across fragments and the accumulator advances by 3000 per packet
(21000 in total for this one NAL), contradicting the claim that all
fragments share one timestamp and the accumulator advances by 3000 per
NAL unit. -/
theorem nalToRTPMultiple_ts_per_fragment :
    (nalToRTPMultiple (newRTPReader 0 50) (mkNALUnit (List.replicate 100 1))).map
        (fun x => (x.1.map RTPPacket.timestamp, x.2.ts)) =
      some ([3000, 6000, 9000, 12000, 15000, 18000, 21000], 21000) := by
  decide

/-- C2: for every NAL unit whose length exceeds mtu - 20 - 12 (and a
sane MTU of at least 35, below which the Go code faults before emitting
any fragment), the emitted fragment sequence reconstructs the original
NAL payload minus its first byte: concatenating the fragment payloads
with the leading two FU bytes stripped gives nal.data minus byte 0. -/
theorem nalToRTPMultiple_fragment_roundtrip (r : RTPState) (nal : NALUnit)
    (ps : List RTPPacket) (r2 : RTPState)
    (hmtu : 35 ≤ r.mtu) (hfrag : r.mtu - 32 < nal.data.length)
    (hsucc : nalToRTPMultiple r nal = some (ps, r2)) :
    (ps.map (fun p => p.payload.drop 2)).flatten = nal.data.drop 1 := by
  obtain ⟨tp, dt, kf⟩ := nal
  match dt, hfrag with
  | [], hfrag => simp at hfrag
  | b0 :: pd, hfrag =>
    simp only [List.length_cons] at hfrag
    rw [nalToRTPMultiple_frag_eq r tp b0 pd kf hmtu hfrag] at hsucc
    injection hsucc with hsucc
    rw [Prod.mk.injEq] at hsucc
    obtain ⟨hps, hr2⟩ := hsucc
    subst hps
    simp only [List.drop_succ_cons, List.drop_zero]
    exact fuLoop_concat (r.mtu - 34) (28 ||| (b0 &&& 224)) kf r.ssrc
      pd.length pd true r.seq r.ts (by omega) (le_refl pd.length)

/-- Concrete fragmentation input for the C2 witness. -/
def c2State : RTPState := newRTPReader 9 48

/-- Concrete oversized NAL for the C2 witness. -/
def c2Nal : NALUnit := mkNALUnit (List.replicate 60 3)

/-- The packets and final state the C2 witness fragmentation produces. -/
def c2Out : List RTPPacket × RTPState :=
  (nalToRTPMultiple c2State c2Nal).getD ([], c2State)

/-- Witness for C2: with MTU 48 a 60-byte NAL fragments and the
stripped fragment payloads concatenate back to the NAL payload minus
its first byte. -/
theorem nalToRTPMultiple_fragment_roundtrip_witness :
    35 ≤ c2State.mtu ∧ c2State.mtu - 32 < c2Nal.data.length ∧
      (c2Out.1.map (fun p => p.payload.drop 2)).flatten = c2Nal.data.drop 1 :=
  ⟨by decide, by decide,
    nalToRTPMultiple_fragment_roundtrip c2State c2Nal c2Out.1 c2Out.2
      (by decide) (by decide) (by decide)⟩

/-- One packetize call: every emitted packet i carries sequence number
(seq + 1 + i) mod 2^16 and the final counter is congruent to the start
counter plus the number of packets emitted, on every successful path
(single packet, fragmentation, or empty fragment remainder). -/
theorem nalToRTPMultiple_seqnums (r : RTPState) (nal : NALUnit)
    (ps : List RTPPacket) (r2 : RTPState)
    (hsucc : nalToRTPMultiple r nal = some (ps, r2)) :
    (∀ i (hi : i < ps.length), ps[i].seqNum = (r.seq + 1 + i) % 65536) ∧
      r2.seq ≡ r.seq + ps.length [MOD 65536] := by
  simp only [nalToRTPMultiple] at hsucc
  by_cases hfit : ((nal.data.length : Int) ≤ (r.mtu : Int) - 20 - 12)
  · rw [if_pos hfit] at hsucc
    injection hsucc with hsucc
    rw [Prod.mk.injEq] at hsucc
    obtain ⟨hps, hr2⟩ := hsucc
    subst hps
    constructor
    · intro i hi
      simp only [List.length_cons, List.length_nil] at hi
      interval_cases i
      simp
    · rw [← hr2]
      simp only [List.length_cons, List.length_nil]
      unfold Nat.ModEq
      omega
  · rw [if_neg hfit] at hsucc
    cases hdt : nal.data with
    | nil => rw [hdt] at hsucc; exact absurd hsucc (by simp)
    | cons b0 pd =>
      rw [hdt] at hsucc
      simp only [] at hsucc
      by_cases hcap : (1 : Int) ≤ (r.mtu : Int) - 20 - 14
      · rw [if_pos hcap] at hsucc
        injection hsucc with hsucc
        rw [Prod.mk.injEq] at hsucc
        obtain ⟨hps, hr2⟩ := hsucc
        subst hps
        have hspec := fuLoop_seq ((r.mtu : Int) - 20 - 14).toNat
          (28 ||| (b0 &&& 224)) nal.keyframe r.ssrc pd.length pd true r.seq r.ts
          (by omega) (le_refl pd.length)
        refine ⟨hspec.1, ?_⟩
        rw [← hr2]
        exact hspec.2
      · rw [if_neg hcap] at hsucc
        by_cases hpd : pd = []
        · rw [if_pos hpd] at hsucc
          injection hsucc with hsucc
          rw [Prod.mk.injEq] at hsucc
          obtain ⟨hps, hr2⟩ := hsucc
          subst hps
          constructor
          · intro i hi; simp at hi
          · rw [← hr2]
            simp [Nat.ModEq]
        · rw [if_neg hpd] at hsucc
          exact absurd hsucc (by simp)

/-- Any run of packetize calls: every emitted packet i carries sequence
number (seq0 + 1 + i) mod 2^16 and the final counter is congruent to
seq0 plus the total number of packets. -/
theorem packetizeRun_seqAux (nals : List NALUnit) :
    ∀ (r : RTPState) (ps : List RTPPacket) (r2 : RTPState),
      packetizeRun r nals = some (ps, r2) →
      (∀ i (hi : i < ps.length), ps[i].seqNum = (r.seq + 1 + i) % 65536) ∧
        r2.seq ≡ r.seq + ps.length [MOD 65536] := by
  induction nals with
  | nil =>
    intro r ps r2 hsucc
    simp only [packetizeRun] at hsucc
    injection hsucc with hsucc
    rw [Prod.mk.injEq] at hsucc
    obtain ⟨hps, hr2⟩ := hsucc
    subst hps
    constructor
    · intro i hi; simp at hi
    · rw [← hr2]; simp [Nat.ModEq]
  | cons n ns ih =>
    intro r ps r2 hsucc
    simp only [packetizeRun] at hsucc
    cases hm : nalToRTPMultiple r n with
    | none => rw [hm] at hsucc; exact absurd hsucc (by simp)
    | some pr1 =>
      obtain ⟨ps1, r1⟩ := pr1
      rw [hm] at hsucc
      simp only [] at hsucc
      cases hrun : packetizeRun r1 ns with
      | none => rw [hrun] at hsucc; simp at hsucc
      | some pr2 =>
        obtain ⟨qs, r3⟩ := pr2
        rw [hrun] at hsucc
        simp only [] at hsucc
        injection hsucc with hsucc
        rw [Prod.mk.injEq] at hsucc
        obtain ⟨hps, hr2⟩ := hsucc
        subst hps
        have h1 := nalToRTPMultiple_seqnums r n ps1 r1 hm
        have h2 := ih r1 qs r3 hrun
        constructor
        · intro i hi
          rw [List.length_append] at hi
          by_cases hlt : i < ps1.length
          · rw [List.getElem_append_left hlt]
            exact h1.1 i hlt
          · push_neg at hlt
            rw [List.getElem_append_right hlt]
            have hj : i - ps1.length < qs.length := by omega
            have := h2.1 (i - ps1.length) hj
            rw [this]
            have hcong := h1.2
            unfold Nat.ModEq at hcong
            omega
        · rw [← hr2, List.length_append]
          have hcong1 := h1.2
          have hcong2 := h2.2
          unfold Nat.ModEq at hcong1 hcong2 ⊢
          omega

/-- C3: across any successful sequence of packetize calls on one
packetizer state, the emitted packets carry sequence numbers
(seq0 + 1 + i) mod 2^16 in emission order — strictly increasing modulo
2^16 with increment exactly 1 and no gaps — whether each NAL was sent
whole or fragmented. -/
theorem packetizeRun_seq_increment (r : RTPState) (nals : List NALUnit)
    (ps : List RTPPacket) (r2 : RTPState)
    (hsucc : packetizeRun r nals = some (ps, r2)) :
    (∀ i (hi : i < ps.length), ps[i].seqNum = (r.seq + 1 + i) % 65536) ∧
      (∀ i (hi : i + 1 < ps.length),
        ps[i + 1].seqNum = (ps[i].seqNum + 1) % 65536) := by
  have h := (packetizeRun_seqAux nals r ps r2 hsucc).1
  refine ⟨h, ?_⟩
  intro i hi
  have h1 := h (i + 1) hi
  have h2 := h i (by omega)
  rw [h1, h2]
  omega

/-- Packetizer state for the C3 witness. -/
def c3State : RTPState := newRTPReader 5 50

/-- NAL inputs for the C3 witness: one NAL sent whole, one fragmented. -/
def c3Nals : List NALUnit :=
  [mkNALUnit [1, 2, 3], mkNALUnit (List.replicate 40 1)]

/-- The packets and final state of the C3 witness run. -/
def c3Out : List RTPPacket × RTPState :=
  (packetizeRun c3State c3Nals).getD ([], c3State)

/-- Witness for C3: a run over a whole NAL followed by a fragmented NAL
emits packets with consecutive sequence numbers. -/
theorem packetizeRun_seq_increment_witness :
    (∀ i (hi : i < c3Out.1.length),
        (c3Out.1)[i].seqNum = (c3State.seq + 1 + i) % 65536) ∧
      (∀ i (hi : i + 1 < c3Out.1.length),
        (c3Out.1)[i + 1].seqNum = ((c3Out.1)[i].seqNum + 1) % 65536) :=
  packetizeRun_seq_increment c3State c3Nals c3Out.1 c3Out.2 (by decide)

set_option maxRecDepth 4000 in
/-- Bit structure of the FU indicator for every byte value: its low
five bits are 28 and its NRI bits (mask 0x60) equal the NRI bits of
the original first NAL byte. -/
theorem fuIndicator_bits :
    ∀ b : Fin 256,
      ((28 ||| (b.val &&& 224)) &&& 31 = 28) ∧
        ((28 ||| (b.val &&& 224)) &&& 96 = b.val &&& 96) := by
  decide

/-- C5: for every fragmented NAL unit (length above mtu - 32, MTU at
least 35 so the Go code does not fault, first byte a byte value): the
packetizer emits at least two fragments; every fragment payload starts
with the FU indicator whose type field is 28 and whose NRI bits are
those of the original first byte; the FU header's Start bit is set
exactly on the first fragment and its End bit exactly on the last; the
data portion of each fragment is at most mtu - 34 bytes; and the
marker bit is set exactly on the last fragment of a
keyframe-significant NAL. -/
theorem nalToRTPMultiple_fragment_structure (r : RTPState) (nal : NALUnit)
    (ps : List RTPPacket) (r2 : RTPState)
    (hmtu : 35 ≤ r.mtu) (hfrag : r.mtu - 32 < nal.data.length)
    (hbyte : nal.data.getD 0 0 < 256)
    (hsucc : nalToRTPMultiple r nal = some (ps, r2)) :
    2 ≤ ps.length ∧
      ∀ i (hi : i < ps.length),
        (ps[i].payload.getD 0 0 &&& 31 = 28 ∧
          ps[i].payload.getD 0 0 &&& 96 = nal.data.getD 0 0 &&& 96) ∧
        ((ps[i].payload.getD 1 0 &&& 128 = 128) ↔ i = 0) ∧
        ((ps[i].payload.getD 1 0 &&& 64 = 64) ↔ i = ps.length - 1) ∧
        (ps[i].payload.length - 2 ≤ r.mtu - 34 ∧ 2 ≤ ps[i].payload.length) ∧
        (ps[i].marker = true ↔ (i = ps.length - 1 ∧ nal.keyframe = true)) := by
  obtain ⟨tp, dt, kf⟩ := nal
  match dt, hfrag, hbyte with
  | [], hfrag, hbyte => simp at hfrag
  | b0 :: pd, hfrag, hbyte =>
    simp only [List.length_cons] at hfrag
    simp only [List.getD_cons_zero] at hbyte ⊢
    rw [nalToRTPMultiple_frag_eq r tp b0 pd kf hmtu hfrag] at hsucc
    injection hsucc with hsucc
    rw [Prod.mk.injEq] at hsucc
    obtain ⟨hps, hr2⟩ := hsucc
    subst hps
    have hcap : 1 ≤ r.mtu - 34 := by omega
    have hgt : r.mtu - 34 < pd.length := by omega
    have hlen2 := fuLoop_len2 (r.mtu - 34) (28 ||| (b0 &&& 224)) kf r.ssrc
      pd.length pd true r.seq r.ts hcap (le_refl pd.length) hgt
    refine ⟨hlen2, ?_⟩
    intro i hi
    obtain ⟨chunk, hpay, hclen, hmark⟩ := fuLoop_shape (r.mtu - 34)
      (28 ||| (b0 &&& 224)) kf r.ssrc pd.length pd true r.seq r.ts hcap
      (le_refl pd.length) i hi
    have hbits := fuIndicator_bits ⟨b0, hbyte⟩
    refine ⟨?_, ?_, ?_, ?_, ?_⟩
    · rw [hpay]
      simp only [List.getD_cons_zero]
      exact hbits
    · rw [hpay]
      simp only [List.getD_cons_succ, List.getD_cons_zero, eq_self_iff_true,
        true_and]
      by_cases hi0 : i = 0
      · have hne : ¬ i = (fuLoop pd.length (r.mtu - 34) (28 ||| (b0 &&& 224))
            kf r.ssrc true r.seq r.ts pd).1.length - 1 := by omega
        rw [if_pos hi0, if_neg hne]
        constructor
        · intro _; exact hi0
        · intro _; decide
      · rw [if_neg hi0]
        by_cases hil : i = (fuLoop pd.length (r.mtu - 34) (28 ||| (b0 &&& 224))
            kf r.ssrc true r.seq r.ts pd).1.length - 1
        · rw [if_pos hil]
          constructor
          · intro h; exact absurd h (by decide)
          · intro h; exact absurd h hi0
        · rw [if_neg hil]
          constructor
          · intro h; exact absurd h (by decide)
          · intro h; exact absurd h hi0
    · rw [hpay]
      simp only [List.getD_cons_succ, List.getD_cons_zero, eq_self_iff_true,
        true_and]
      by_cases hi0 : i = 0
      · have hne : ¬ i = (fuLoop pd.length (r.mtu - 34) (28 ||| (b0 &&& 224))
            kf r.ssrc true r.seq r.ts pd).1.length - 1 := by omega
        rw [if_pos hi0, if_neg hne]
        constructor
        · intro h; exact absurd h (by decide)
        · intro h; exact absurd h hne
      · rw [if_neg hi0]
        by_cases hil : i = (fuLoop pd.length (r.mtu - 34) (28 ||| (b0 &&& 224))
            kf r.ssrc true r.seq r.ts pd).1.length - 1
        · rw [if_pos hil]
          constructor
          · intro _; exact hil
          · intro _; decide
        · rw [if_neg hil]
          constructor
          · intro h; exact absurd h (by decide)
          · intro h; exact absurd h hil
    · rw [hpay]
      simp only [List.length_cons]
      omega
    · rw [hmark]
      simp only [Bool.and_eq_true, decide_eq_true_eq]

/-- Packetizer state for the C5 witness. -/
def c5State : RTPState := newRTPReader 3 50

/-- Keyframe-significant oversized NAL for the C5 witness (first byte
101: type 5, an IDR slice). -/
def c5Nal : NALUnit := mkNALUnit (101 :: List.replicate 99 7)

/-- The packets and final state the C5 witness fragmentation produces. -/
def c5Out : List RTPPacket × RTPState :=
  (nalToRTPMultiple c5State c5Nal).getD ([], c5State)

/-- Witness for C5: a 100-byte IDR NAL with MTU 50 fragments with the
claimed FU structure. -/
theorem nalToRTPMultiple_fragment_structure_witness :
    35 ≤ c5State.mtu ∧ c5State.mtu - 32 < c5Nal.data.length ∧
      (2 ≤ c5Out.1.length ∧
        ∀ i (hi : i < c5Out.1.length),
          ((c5Out.1)[i].payload.getD 0 0 &&& 31 = 28 ∧
            (c5Out.1)[i].payload.getD 0 0 &&& 96 = c5Nal.data.getD 0 0 &&& 96) ∧
          (((c5Out.1)[i].payload.getD 1 0 &&& 128 = 128) ↔ i = 0) ∧
          (((c5Out.1)[i].payload.getD 1 0 &&& 64 = 64) ↔ i = c5Out.1.length - 1) ∧
          ((c5Out.1)[i].payload.length - 2 ≤ c5State.mtu - 34 ∧
            2 ≤ (c5Out.1)[i].payload.length) ∧
          ((c5Out.1)[i].marker = true ↔
            (i = c5Out.1.length - 1 ∧ c5Nal.keyframe = true))) :=
  ⟨by decide, by decide,
    nalToRTPMultiple_fragment_structure c5State c5Nal c5Out.1 c5Out.2
      (by decide) (by decide) (by decide) (by decide)⟩

/-! ## Lemmas about the bitstream scanner -/

/-- On a suffix containing no zero byte the next-start-code search runs
to its stopping bound: it advances exactly to four bytes before the end
of the suffix (or not at all when fewer than five bytes remain). -/
theorem findNextS_no_code (s : List Nat) :
    ∀ j, (∀ b ∈ s, b ≠ 0) → findNextS s j = j + (s.length - 4) := by
  induction s with
  | nil => intro j h; simp [findNextS]
  | cons a tail ih =>
    intro j h
    rcases tail with _ | ⟨b, _ | ⟨c, _ | ⟨d, _ | ⟨e, rest⟩⟩⟩⟩
    · simp [findNextS]
    · simp [findNextS]
    · simp [findNextS]
    · simp [findNextS]
    · have ha : a ≠ 0 := h a (List.mem_cons_self a _)
      have hcond1 : ¬ (a = 0 ∧ b = 0 ∧ c = 0 ∧ d = 1) := by tauto
      have hcond2 : ¬ (a = 0 ∧ b = 0 ∧ c = 1) := by tauto
      have hstep : findNextS (a :: b :: c :: d :: e :: rest) j =
          findNextS (b :: c :: d :: e :: rest) (j + 1) := by
        simp only [findNextS, if_neg hcond1, if_neg hcond2]
      rw [hstep, ih (j + 1) (fun x hx => h x (List.mem_cons_of_mem a hx))]
      simp only [List.length_cons]
      omega

/-- A suffix of at most four nonzero bytes contains no start code the
scanner can act on: the start-code search returns nothing. -/
theorem findStartS_short (s : List Nat) (i : Nat)
    (hlen : s.length ≤ 4) (hnz : ∀ b ∈ s, b ≠ 0) :
    findStartS s i = none := by
  rcases s with _ | ⟨a, _ | ⟨b, _ | ⟨c, _ | ⟨d, _ | ⟨e, rest⟩⟩⟩⟩⟩
  · rfl
  · rfl
  · rfl
  · rfl
  · have ha : a ≠ 0 := hnz a (List.mem_cons_self a _)
    have hcond1 : ¬ (a = 0 ∧ b = 0 ∧ c = 1) := by tauto
    have hcond2 : ¬ (([] : List Nat) ≠ [] ∧ a = 0 ∧ b = 0 ∧ c = 0 ∧ d = 1) := by
      simp
    simp only [findStartS, if_neg hcond1, if_neg hcond2]
  · simp at hlen

/-- C8 counterexample: a buffer with a single leading start code and no
trailing start code. The claim predicts the final partial unit is
dropped entirely (empty scanner output); instead the scanner emits one
unit, truncated to the bytes before the last four of the buffer. -/
theorem parseH264Bitstream_trailing_cex :
    (parseH264Bitstream [0, 0, 1, 9, 9, 9, 9, 9, 9]).map NALUnit.data =
        [[9, 9]] ∧
      parseH264Bitstream [0, 0, 1, 9, 9, 9, 9, 9, 9] ≠ [] := by
  constructor
  · decide
  · decide

/-- One unfolding step of the scanner's outer loop. -/
theorem parseLoopF_succ (fuel : Nat) (s : List Nat) :
    parseLoopF (fuel + 1) s =
      (if s = [] then []
       else
         match findStartS s 0 with
         | none => []
         | some (p, scl) =>
           if s.drop (p + scl) = [] then []
           else
             if 0 < ((s.drop (p + scl)).take
                 (findNextS (s.drop (p + scl)) 0)).length then
               mkNALUnit ((s.drop (p + scl)).take
                   (findNextS (s.drop (p + scl)) 0)) ::
                 parseLoopF fuel
                   ((s.drop (p + scl)).drop (findNextS (s.drop (p + scl)) 0))
             else
               parseLoopF fuel
                 ((s.drop (p + scl)).drop (findNextS (s.drop (p + scl)) 0))) :=
  rfl

/-- C8 (amended): a final unit with no trailing start code is not
dropped — it is emitted truncated: for a buffer that is one 3-byte
start code followed by a start-code-free payload t of at least five
bytes, the scanner emits exactly one unit whose data is t with its
last four bytes cut off. -/
theorem parseH264Bitstream_trailing_truncated (t : List Nat)
    (hnz : ∀ b ∈ t, b ≠ 0) (hlen : 5 ≤ t.length) :
    (parseH264Bitstream (0 :: 0 :: 1 :: t)).map NALUnit.data =
      [t.take (t.length - 4)] := by
  rcases t with _ | ⟨t0, tail⟩
  · simp at hlen
  · simp only [parseH264Bitstream, List.length_cons]
    have hshow : tail.length + 1 + 3 = (tail.length + 3) + 1 := by omega
    rw [hshow, parseLoopF_succ]
    have hne : (0 :: 0 :: 1 :: t0 :: tail) ≠ [] := by simp
    rw [if_neg hne]
    have hfs : findStartS (0 :: 0 :: 1 :: t0 :: tail) 0 = some (0, 3) := by
      simp [findStartS]
    rw [hfs]
    simp only [Nat.zero_add, List.drop_succ_cons, List.drop_zero]
    have hne2 : (t0 :: tail) ≠ [] := by simp
    rw [if_neg hne2]
    have hfn : findNextS (t0 :: tail) 0 = (t0 :: tail).length - 4 := by
      simpa using findNextS_no_code (t0 :: tail) 0 hnz
    rw [hfn]
    simp only [List.length_cons] at hlen ⊢
    have htake : ((t0 :: tail).take (tail.length + 1 - 4)).length =
        tail.length + 1 - 4 := by
      rw [List.length_take, List.length_cons]
      omega
    have hpos : 0 < ((t0 :: tail).take (tail.length + 1 - 4)).length := by
      rw [htake]; omega
    rw [if_pos hpos]
    have hrest : parseLoopF (tail.length + 3)
        ((t0 :: tail).drop (tail.length + 1 - 4)) = [] := by
      have hlen4 : ((t0 :: tail).drop (tail.length + 1 - 4)).length = 4 := by
        rw [List.length_drop, List.length_cons]
        omega
      have hnz2 : ∀ b ∈ (t0 :: tail).drop (tail.length + 1 - 4), b ≠ 0 :=
        fun b hb => hnz b (List.mem_of_mem_drop hb)
      have hshow2 : tail.length + 3 = (tail.length + 2) + 1 := by omega
      have hne3 : (t0 :: tail).drop (tail.length + 1 - 4) ≠ [] := by
        intro hcon
        rw [hcon] at hlen4
        simp at hlen4
      rw [hshow2, parseLoopF_succ, if_neg hne3,
        findStartS_short _ 0 (by omega) hnz2]
    rw [hrest]
    simp [mkNALUnit]

/-- Witness for the amended C8: the payload 8,8,8,8,8,8 after a 3-byte
start code is emitted as one unit truncated to its first two bytes. -/
theorem parseH264Bitstream_trailing_truncated_witness :
    (∀ b ∈ List.replicate 6 8, b ≠ 0) ∧ 5 ≤ (List.replicate 6 8).length ∧
      (parseH264Bitstream (0 :: 0 :: 1 :: List.replicate 6 8)).map
          NALUnit.data =
        [(List.replicate 6 8).take ((List.replicate 6 8).length - 4)] :=
  ⟨by decide, by decide,
    parseH264Bitstream_trailing_truncated (List.replicate 6 8)
      (by decide) (by decide)⟩

/-- C10 counterexample: a read window holding one leading start code
and no further start code contains no unit delimited on both sides by
complete start codes, yet Read returns a (truncated) unit rather than
no unit. -/
theorem h264Read_partial_window_cex :
    h264VideoReaderRead [0, 0, 1, 7, 7, 7, 7, 7, 7] =
      some { type := 7, data := [7, 7], keyframe := true } := by
  decide

/-- C10 (amended): Read returns no unit and no error exactly when the
scanner emits nothing from the window (in particular when the window
holds no start code); otherwise it returns the scanner's first unit
and discards the rest — including a trailing unit without a closing
start code, which the scanner emits truncated rather than dropping. -/
theorem h264Read_first_unit (window : List Nat) :
    (parseH264Bitstream window = [] → h264VideoReaderRead window = none) ∧
      (∀ u rest, parseH264Bitstream window = u :: rest →
        h264VideoReaderRead window = some u) := by
  constructor
  · intro h
    simp [h264VideoReaderRead, h]
  · intro u rest h
    simp [h264VideoReaderRead, h]

/-- Witness for the amended C10: a window holding two complete units
yields only the first; the second is discarded. -/
theorem h264Read_first_unit_witness :
    h264VideoReaderRead
        [0, 0, 1, 2, 2, 2, 2, 2, 2, 0, 0, 1, 3, 3, 3, 3, 3, 3] =
      some { type := 2, data := [2, 2, 2, 2, 2, 2], keyframe := false } :=
  (h264Read_first_unit
      [0, 0, 1, 2, 2, 2, 2, 2, 2, 0, 0, 1, 3, 3, 3, 3, 3, 3]).2
    { type := 2, data := [2, 2, 2, 2, 2, 2], keyframe := false }
    [{ type := 3, data := [3, 3], keyframe := false }] (by decide)
